import Mathlib

/-!
Shallow embedding of the effect-inference engine of the quint (tnt) repository:
the effect model, substitutions, unification and the inference orchestrator
(`inferEffects` and the `EffectInferrerVisitor` callbacks `exitName`, `exitApp`,
`exitLiteral`, `exitOpDef`, `exitLet`, `enterLambda`, `exitLambda`, `freshVar`,
`fetchSignature`, `newInstance`).  The orchestrator is translated directly from
the source; the support modules that the source imports (effect base module,
substitution engine, unification engine, lookup table, scope tree, IR walker)
are not part of the provided sources and are modelled from the specification,
as marked on each definition.
-/

namespace Tnt

/-- A variable set of the effect algebra: either an exact set of state-variable
names or a quantified placeholder (source constructs these as
kind concrete / kind quantified objects). -/
inductive Variables where
  | concrete (vars : List String)
  | quantified (name : String)
deriving DecidableEq

/-- An effect: a fully resolved footprint, a placeholder effect variable, or
the effect of an operator (source: the effect model of the inference engine). -/
inductive Effect where
  | concrete (read update temporal : Variables)
  | quantified (name : String)
  | arrow (params : List Effect) (result : Effect)

/-- Modelled from the spec: emptyVariables is the empty concrete variable set
(the spec describes emptyFootprint as a Concrete effect with all three
variable sets empty-Concrete). -/
def emptyVariables : Variables := .concrete []

/-- The pure effect: Concrete with the three empty variable sets. -/
def pureEffect : Effect := .concrete emptyVariables emptyVariables emptyVariables

/- Decimal rendering of a natural number, used to model the template literals
of the source (fresh variable names and lambda placeholder names embed node
ids and counters in decimal).  Fuel-structured so that it reduces in the
kernel; the fuel n + 1 always suffices for n. -/

/-- One decimal digit as a character (digits 0 to 9). -/
def digitChar (d : Nat) : Char :=
  match d with
  | 0 => '0' | 1 => '1' | 2 => '2' | 3 => '3' | 4 => '4'
  | 5 => '5' | 6 => '6' | 7 => '7' | 8 => '8' | 9 => '9'
  | _ => '*'

/-- Little-endian decimal digits of n, with explicit fuel. -/
def toDigitsLE : Nat → Nat → List Nat
  | 0, _ => []
  | _ + 1, 0 => []
  | fuel + 1, n + 1 => ((n + 1) % 10) :: toDigitsLE fuel ((n + 1) / 10)

/-- Decimal rendering of a natural number, as produced by the template
literals of the source. -/
def natToStr (n : Nat) : String :=
  if n = 0 then "0" else String.mk (((toDigitsLE (n + 1) n).map digitChar).reverse)

/-- Value of a little-endian digit list. -/
def unDigits : List Nat → Nat
  | [] => 0
  | d :: ds => d + 10 * unDigits ds

theorem unDigits_toDigitsLE : ∀ fuel n, n < fuel → unDigits (toDigitsLE fuel n) = n := by
  intro fuel
  induction fuel with
  | zero => intro n h; omega
  | succ fuel ih =>
    intro n h
    match n with
    | 0 => simp [toDigitsLE, unDigits]
    | Nat.succ m =>
      have hd : (m + 1) / 10 < fuel := by
        have h1 : (m + 1) / 10 < m + 1 := Nat.div_lt_self (Nat.succ_pos m) (by omega)
        omega
      simp only [toDigitsLE, unDigits, ih _ hd]
      omega

theorem toDigitsLE_lt_ten : ∀ fuel n d, d ∈ toDigitsLE fuel n → d < 10 := by
  intro fuel
  induction fuel with
  | zero => intro n d h; simp [toDigitsLE] at h
  | succ fuel ih =>
    intro n d h
    match n with
    | 0 => simp [toDigitsLE] at h
    | Nat.succ m =>
      simp only [toDigitsLE, List.mem_cons] at h
      rcases h with h | h
      · omega
      · exact ih _ _ h

theorem digitChar_inj {d e : Nat} (hd : d < 10) (he : e < 10)
    (h : digitChar d = digitChar e) : d = e := by
  interval_cases d <;> interval_cases e <;> simp_all [digitChar]

theorem map_digitChar_inj : ∀ l1 l2 : List Nat, (∀ d ∈ l1, d < 10) → (∀ d ∈ l2, d < 10) →
    l1.map digitChar = l2.map digitChar → l1 = l2 := by
  intro l1
  induction l1 with
  | nil => intro l2 _ _ h; cases l2 <;> simp_all
  | cons d ds ih =>
    intro l2 h1 h2 h
    cases l2 with
    | nil => simp at h
    | cons e es =>
      simp only [List.map_cons, List.cons.injEq] at h
      have hde : d = e := digitChar_inj (h1 d (by simp)) (h2 e (by simp)) h.1
      have : ds = es := ih es (fun x hx => h1 x (by simp [hx])) (fun x hx => h2 x (by simp [hx])) h.2
      rw [hde, this]

theorem natToStr_inj : ∀ a b : Nat, natToStr a = natToStr b → a = b := by
  have nonzero : ∀ b : Nat, b ≠ 0 → natToStr b ≠ natToStr 0 := by
    intro b hb0 h0
    simp only [natToStr, if_neg hb0, if_pos rfl] at h0
    have hdata := congrArg String.data h0
    simp only [String.data] at hdata
    have hrev : (toDigitsLE (b + 1) b).map digitChar = ['0'] := by
      have := congrArg List.reverse hdata
      simpa using this
    have hzero : toDigitsLE (b + 1) b = [0] :=
      map_digitChar_inj (toDigitsLE (b + 1) b) [0]
        (fun d hd => toDigitsLE_lt_ten _ _ _ hd) (by simp)
        (by simpa [digitChar] using hrev)
    have hval := unDigits_toDigitsLE (b + 1) b (by omega)
    rw [hzero] at hval
    simp [unDigits] at hval
    omega
  intro a b h
  by_cases ha : a = 0 <;> by_cases hb : b = 0
  · omega
  · exfalso; subst ha; exact nonzero b hb h.symm
  · exfalso; subst hb; exact nonzero a ha h
  · simp only [natToStr, if_neg ha, if_neg hb] at h
    have hdata := congrArg String.data h
    simp only [String.data] at hdata
    have hrev : (toDigitsLE (a + 1) a).map digitChar = (toDigitsLE (b + 1) b).map digitChar := by
      have := congrArg List.reverse hdata
      simpa using this
    have hmap := map_digitChar_inj _ _ (fun d hd => toDigitsLE_lt_ten _ _ _ hd)
      (fun d hd => toDigitsLE_lt_ten _ _ _ hd) hrev
    have hab : unDigits (toDigitsLE (a + 1) a) = unDigits (toDigitsLE (b + 1) b) := by rw [hmap]
    rwa [unDigits_toDigitsLE _ _ (by omega), unDigits_toDigitsLE _ _ (by omega)] at hab

theorem string_append_left_cancel {p a b : String} (h : p ++ a = p ++ b) : a = b := by
  have hd := congrArg String.data h
  simp only [String.data_append] at hd
  have := List.append_cancel_left hd
  cases a; cases b; simp_all [String.data]

/-- Association-list map with the update-in-place and append-at-end semantics
of a JS Map (insertion order is preserved; set on an existing key rewrites the
entry in place). -/
def assocSet {κ α : Type} [DecidableEq κ] : List (κ × α) → κ → α → List (κ × α)
  | [], k, v => [(k, v)]
  | (k', v') :: rest, k, v =>
    if k' = k then (k, v) :: rest else (k', v') :: assocSet rest k v

/-- Lookup in an association-list map (JS Map get). -/
def assocGet? {κ α : Type} [DecidableEq κ] : List (κ × α) → κ → Option α
  | [], _ => none
  | (k', v') :: rest, k => if k' = k then some v' else assocGet? rest k

theorem assocGet?_set_eq {κ α : Type} [DecidableEq κ] (m : List (κ × α)) (k : κ) (v : α) :
    assocGet? (assocSet m k v) k = some v := by
  induction m with
  | nil => simp [assocSet, assocGet?]
  | cons p rest ih =>
    rcases p with ⟨k1, v1⟩
    by_cases h : k1 = k
    · simp [assocSet, h, assocGet?]
    · simp [assocSet, h, assocGet?, ih]

theorem assocGet?_set_ne {κ α : Type} [DecidableEq κ] (m : List (κ × α)) (k k' : κ) (v : α)
    (h : k' ≠ k) : assocGet? (assocSet m k v) k' = assocGet? m k' := by
  induction m with
  | nil => simp [assocSet, assocGet?, Ne.symm h]
  | cons p rest ih =>
    rcases p with ⟨k1, v1⟩
    by_cases hp : k1 = k
    · subst hp
      simp [assocSet, assocGet?, Ne.symm h]
    · by_cases hpk : k1 = k'
      · subst hpk
        simp [assocSet, hp, assocGet?]
      · simp [assocSet, hp, assocGet?, hpk, ih]

/-- Error tree for inference failures.  Modelled from the spec: the source
errorTree module is not among the provided files; an error carries an optional
message, a location context and child errors, as constructed by the
orchestrator (message, location, children fields). -/
inductive ErrorTree where
  | mk (message : Option String) (location : String) (children : List ErrorTree)

mutual

/-- Modelled from the spec: errorTreeToString renders an error tree as a
human-readable explanation (the exact rendering is outside the claims). -/
def errorTreeToString : ErrorTree → String
  | .mk msg loc cs =>
    (match msg with
     | some m => m
     | none => errorListToString cs) ++ " at " ++ loc

def errorListToString : List ErrorTree → String
  | [] => ""
  | e :: es => errorTreeToString e ++ "; " ++ errorListToString es

end

mutual

/-- Node count of an effect, used only to supply ample unification fuel. -/
def esize : Effect → Nat
  | .concrete _ _ _ => 1
  | .quantified _ => 1
  | .arrow ps r => 1 + esizeList ps + esize r

def esizeList : List Effect → Nat
  | [] => 0
  | e :: es => 1 + esize e + esizeList es

end

/-- One substitution binding: a quantified-variable name mapped to an Effect or
a VariableSet of the matching kind (spec section 3). -/
inductive Subst where
  | effectSub (name : String) (value : Effect)
  | varsSub (name : String) (value : Variables)

/-- The name (key) of a binding. -/
def Subst.name : Subst → String
  | .effectSub n _ => n
  | .varsSub n _ => n

/-- Substitutions are an ordered sequence of bindings. -/
abbrev Substitutions : Type := List Subst

/-- Modelled from the spec: applying a substitution to a variable set replaces
a quantified variable set whose name has a binding; a binding of the wrong
kind at the site is an error; application is a single simultaneous pass. -/
def applyToVars (subs : Substitutions) : Variables → Except ErrorTree Variables
  | .concrete vs => .ok (.concrete vs)
  | .quantified n =>
    match List.find? (fun b => Subst.name b == n) subs with
    | some (.varsSub _ v) => .ok v
    | some (.effectSub _ _) =>
      .error (.mk (some ("Effect binding found for variable set variable " ++ n)) "" [])
    | none => .ok (.quantified n)

mutual

/-- Modelled from the spec: applySubstitution structurally rewrites an effect,
replacing every quantified effect variable or quantified variable set whose
name has a binding with the bound value, recursing into arrow params and
result and into each variable set of a concrete effect; it fails when a
binding value kind does not match the site. -/
def applySubstitution (subs : Substitutions) : Effect → Except ErrorTree Effect
  | .quantified n =>
    match List.find? (fun b => Subst.name b == n) subs with
    | some (.effectSub _ v) => .ok v
    | some (.varsSub _ _) =>
      .error (.mk (some ("Variable set binding found for effect variable " ++ n)) "" [])
    | none => .ok (.quantified n)
  | .concrete r u t =>
    match applyToVars subs r, applyToVars subs u, applyToVars subs t with
    | .ok r', .ok u', .ok t' => .ok (.concrete r' u' t')
    | .error e, _, _ => .error e
    | _, .error e, _ => .error e
    | _, _, .error e => .error e
  | .arrow ps res =>
    match applySubList subs ps, applySubstitution subs res with
    | .ok ps', .ok res' => .ok (.arrow ps' res')
    | .error e, _ => .error e
    | _, .error e => .error e

def applySubList (subs : Substitutions) : List Effect → Except ErrorTree (List Effect)
  | [] => .ok []
  | e :: es =>
    match applySubstitution subs e, applySubList subs es with
    | .ok e', .ok es' => .ok (e' :: es')
    | .error err, _ => .error err
    | _, .error err => .error err

end

/-- Modelled from the spec: the value-rewriting pass of composition, applying
newSubs to the value of every binding of the existing substitution. -/
def applyToSubstValues (newSubs : Substitutions) : Substitutions → Except ErrorTree Substitutions
  | [] => .ok []
  | .effectSub n v :: rest =>
    match applySubstitution newSubs v, applyToSubstValues newSubs rest with
    | .ok v', .ok rest' => .ok (.effectSub n v' :: rest')
    | .error e, _ => .error e
    | _, .error e => .error e
  | .varsSub n v :: rest =>
    match applyToVars newSubs v, applyToSubstValues newSubs rest with
    | .ok v', .ok rest' => .ok (.varsSub n v' :: rest')
    | .error e, _ => .error e
    | _, .error e => .error e

/-- Modelled from the spec: compose newSubs existing produces a substitution
equivalent to applying existing and then newSubs, by applying newSubs to the
value of every binding of existing and then appending the bindings of newSubs
whose names are not already keys of existing. -/
def compose (newSubs existing : Substitutions) : Except ErrorTree Substitutions :=
  match applyToSubstValues newSubs existing with
  | .error e => .error e
  | .ok rewritten =>
    .ok (rewritten ++
      List.filter (fun b => !(List.any existing (fun b2 => Subst.name b2 == Subst.name b))) newSubs)

/-- Kind tag of a collected quantified name (effect variable or variable-set
variable), as consumed by newInstance in the source. -/
inductive NameKind where
  | effectKind
  | variableKind
deriving DecidableEq

/-- A quantified name together with its kind. -/
structure KindedName where
  kind : NameKind
  name : String
deriving DecidableEq

/-- Quantified names of a variable set. -/
def varsKindedNames : Variables → List KindedName
  | .concrete _ => []
  | .quantified n => [⟨.variableKind, n⟩]

mutual

/-- All quantified names reachable in an effect, with kinds, in syntactic
order and possibly with repetitions. -/
def effectNamesRaw : Effect → List KindedName
  | .concrete r u t => varsKindedNames r ++ varsKindedNames u ++ varsKindedNames t
  | .quantified n => [⟨.effectKind, n⟩]
  | .arrow ps res => effectNamesRawList ps ++ effectNamesRaw res

def effectNamesRawList : List Effect → List KindedName
  | [] => []
  | e :: es => effectNamesRaw e ++ effectNamesRawList es

end

/-- First-occurrence deduplication, structurally recursive on the input. -/
def nubNamesAux : List KindedName → List KindedName → List KindedName
  | _, [] => []
  | seen, n :: ns => if n ∈ seen then nubNamesAux seen ns else n :: nubNamesAux (n :: seen) ns

/-- Modelled from the spec: effectNames collects the set (no repetitions) of
every quantified name reachable anywhere inside an effect, with its kind. -/
def effectNames (e : Effect) : List KindedName := nubNamesAux [] (effectNamesRaw e)

/-- A unification error with a plain message. -/
def unifyErr (msg : String) : ErrorTree := .mk (some msg) "" []

/-- Whether the effect variable n occurs (as an effect variable) inside an
effect, for the occurs-check. -/
def effectOccurs (n : String) (e : Effect) : Bool :=
  List.any (effectNamesRaw e) (fun kn => kn.kind == NameKind.effectKind && kn.name == n)

/-- Modelled from the spec: variable-set unification; a quantified side is
bound to the other side, and two concrete sides unify exactly when they are
equal as sets. -/
def unifyVars (v1 v2 : Variables) : Except ErrorTree Substitutions :=
  match v1, v2 with
  | .quantified n, v => .ok [.varsSub n v]
  | v, .quantified n => .ok [.varsSub n v]
  | .concrete s1, .concrete s2 =>
    if (List.all s1 (fun x => List.contains s2 x)) && (List.all s2 (fun x => List.contains s1 x))
    then .ok []
    else .error (unifyErr "Expected equal variable sets")

mutual

/-- Modelled from the spec (section 4.3): structural unification of two
effects, producing a substitution or an error.  The recursion is structured on
a fuel argument so that it is kernel-reducible; the wrapper unify supplies
ample fuel, and exhausted fuel is a unification error. -/
def unifyF : Nat → Effect → Effect → Except ErrorTree Substitutions
  | 0, _, _ => .error (unifyErr "unification fuel exhausted")
  | _ + 1, .quantified n, .quantified m =>
    if n = m then .ok [] else .ok [.effectSub n (.quantified m)]
  | _ + 1, .quantified n, e =>
    if effectOccurs n e
    then .error (unifyErr ("Can not bind " ++ n ++ ": circular effect"))
    else .ok [.effectSub n e]
  | _ + 1, e, .quantified n =>
    if effectOccurs n e
    then .error (unifyErr ("Can not bind " ++ n ++ ": circular effect"))
    else .ok [.effectSub n e]
  | _ + 1, .concrete r1 u1 t1, .concrete r2 u2 t2 =>
    match unifyVars r1 r2, unifyVars u1 u2, unifyVars t1 t2 with
    | .ok sr, .ok su, .ok st =>
      (match compose su sr with
       | .error e => .error e
       | .ok s1 => compose st s1)
    | .error e, _, _ => .error e
    | _, .error e, _ => .error e
    | _, _, .error e => .error e
  | fuel + 1, .arrow ps1 r1, .arrow ps2 r2 =>
    if ps1.length ≠ ps2.length
    then .error (unifyErr "Expected arrows with the same number of arguments")
    else
      match unifyParams fuel ps1 ps2 [] with
      | .error e => .error e
      | .ok s =>
        match applySubstitution s r1, applySubstitution s r2 with
        | .ok a1, .ok a2 =>
          (match unifyF fuel a1 a2 with
           | .error e => .error e
           | .ok sr => compose sr s)
        | .error e, _ => .error e
        | _, .error e => .error e
  | _ + 1, _, _ => .error (unifyErr "Can not unify effects of different shapes")

/-- Left-to-right unification of the parameter pairs of two arrows, composing
the substitutions and applying the accumulated substitution to each later
pair, per the spec arrow rule. -/
def unifyParams : Nat → List Effect → List Effect → Substitutions → Except ErrorTree Substitutions
  | 0, _, _, _ => .error (unifyErr "unification fuel exhausted")
  | _ + 1, [], [], acc => .ok acc
  | fuel + 1, p1 :: ps1, p2 :: ps2, acc =>
    match applySubstitution acc p1, applySubstitution acc p2 with
    | .ok a1, .ok a2 =>
      (match unifyF fuel a1 a2 with
       | .error e => .error e
       | .ok s =>
         match compose s acc with
         | .error e => .error e
         | .ok acc2 => unifyParams fuel ps1 ps2 acc2)
    | .error e, _ => .error e
    | _, .error e => .error e
  | _ + 1, _, _, _ => .error (unifyErr "Expected arrows with the same number of arguments")

end

/-- Modelled from the spec: unify solves the structural equations between two
effects, producing a substitution or an error (fuel instantiated amply from
the sizes of the two effects). -/
def unify (e1 e2 : Effect) : Except ErrorTree Substitutions :=
  unifyF ((esize e1 + esize e2 + 2) * (esize e1 + esize e2 + 2)) e1 e2

mutual

/-- The expression IR consumed by the inference orchestrator (source tntIr
expression union: TntName, TntApp, TntLambda, TntLet, TntBool, TntInt,
TntStr), collapsed into one inductive with one constructor per node kind. -/
inductive TntEx where
  | name (id : Nat) (name : String)
  | app (id : Nat) (opcode : String) (args : List TntEx)
  | lam (id : Nat) (params : List String) (expr : TntEx)
  | letE (id : Nat) (opdef : TntOpDef) (expr : TntEx)
  | bool (id : Nat) (value : Bool)
  | int (id : Nat) (value : Int)
  | str (id : Nat) (value : String)

/-- An operator definition (source TntOpDef: id, name, qualifier, body). -/
inductive TntOpDef where
  | mk (id : Nat) (name : String) (qualifier : String) (expr : TntEx)

end

/-- The node id of an expression. -/
def TntEx.id : TntEx → Nat
  | .name i _ => i
  | .app i _ _ => i
  | .lam i _ _ => i
  | .letE i _ _ => i
  | .bool i _ => i
  | .int i _ => i
  | .str i _ => i

mutual

/-- A module-level definition (source TntDef union restricted to the kinds the
orchestrator visits: operator definitions, state variables, constants and
nested modules). -/
inductive TntDef where
  | opdef (d : TntOpDef)
  | var (id : Nat) (name : String)
  | const (id : Nat) (name : String)
  | moduleDef (id : Nat) (module : TntModule)

/-- A module: id, name and its definitions (source TntModule). -/
inductive TntModule where
  | mk (id : Nat) (name : String) (defs : List TntDef)

end

/-- The name of a module. -/
def TntModule.name : TntModule → String
  | .mk _ n _ => n

mutual

/-- Modelled from the spec: expressionToString renders an expression as source
text for use as error location context (the exact rendering is cosmetic). -/
def expressionToString : TntEx → String
  | .name _ n => n
  | .app _ op args => op ++ "(" ++ argsToString args ++ ")"
  | .lam _ ps e => "(" ++ String.intercalate ", " ps ++ " => " ++ expressionToString e ++ ")"
  | .letE _ d e => opDefToString d ++ " . " ++ expressionToString e
  | .bool _ v => if v then "true" else "false"
  | .int _ v => if v < 0 then "-" ++ natToStr (-v).toNat else natToStr v.toNat
  | .str _ v => "\"" ++ v ++ "\""

def argsToString : List TntEx → String
  | [] => ""
  | [e] => expressionToString e
  | e :: es => expressionToString e ++ ", " ++ argsToString es

def opDefToString : TntOpDef → String
  | .mk _ n q e => q ++ " " ++ n ++ " = " ++ expressionToString e

end

/-- A scope tree: a node id and the scope trees of the syntactic children
(shape used by the source: value and children fields). -/
inductive ScopeTree where
  | mk (value : Nat) (children : List ScopeTree)

mutual

/-- Modelled from the spec: the chain of scope ids leading to a node, used to
decide visibility of scoped definitions. -/
def scopesForId : ScopeTree → Nat → List Nat
  | .mk v cs, i =>
    if v = i then [v]
    else
      match scopesInList cs i with
      | [] => []
      | l => v :: l

def scopesInList : List ScopeTree → Nat → List Nat
  | [], _ => []
  | c :: cs, i =>
    match scopesForId c i with
    | [] => scopesInList cs i
    | l => l

end

mutual

/-- Modelled from the spec: the scope tree of an expression mirrors the
syntactic nesting of node ids. -/
def treeOfEx : TntEx → ScopeTree
  | .name i _ => .mk i []
  | .app i _ args => .mk i (treeOfExList args)
  | .lam i _ e => .mk i [treeOfEx e]
  | .letE i d e => .mk i [treeOfOpDef d, treeOfEx e]
  | .bool i _ => .mk i []
  | .int i _ => .mk i []
  | .str i _ => .mk i []

def treeOfExList : List TntEx → List ScopeTree
  | [] => []
  | e :: es => treeOfEx e :: treeOfExList es

def treeOfOpDef : TntOpDef → ScopeTree
  | .mk i _ _ e => .mk i [treeOfEx e]

end

mutual

/-- Modelled from the spec: scope tree of a module-level definition. -/
def treeOfDef : TntDef → ScopeTree
  | .opdef d => treeOfOpDef d
  | .var i _ => .mk i []
  | .const i _ => .mk i []
  | .moduleDef _ m => treeFromModule m

def treeOfDefList : List TntDef → List ScopeTree
  | [] => []
  | d :: ds => treeOfDef d :: treeOfDefList ds

/-- Modelled from the spec: treeFromModule produces the scope tree giving the
scope chain for every node of a module. -/
def treeFromModule : TntModule → ScopeTree
  | .mk i _ ds => .mk i (treeOfDefList ds)

end

/-- A resolved name definition (external collaborator data, spec section 3):
kind, identifier, optional reference to the defining node, optional scope. -/
structure NameDefinition where
  kind : String
  identifier : String
  reference : Option Nat := none
  scope : Option Nat := none
deriving DecidableEq

/-- A per-module name table. -/
abbrev LookupTable := List NameDefinition

/-- The tables for all modules, keyed by module name. -/
abbrev LookupTableByModule := List (String × LookupTable)

/-- Modelled from the spec: lookupValue resolves an identifier from a node:
definitions without a scope are visible everywhere, scoped definitions are
visible when their scope belongs to the scope chain of the node. -/
def lookupValue (table : LookupTable) (tree : ScopeTree) (nm : String) (scopeId : Nat) :
    Option NameDefinition :=
  List.find? (fun d =>
    d.identifier == nm &&
    (match d.scope with
     | none => true
     | some sc => List.contains (scopesForId tree scopeId) sc)) table

/-- A builtin signature: a function from arity to an effect template. -/
abbrev Signature := Nat → Effect

/-- The builtin signature table, keyed by operator name. -/
abbrev Builtins := List (String × Signature)

/-- The run-scoped mutable state of the EffectInferrerVisitor of the source:
effects map, errors map, fresh-variable counters, running substitution, and
the traversal context (current table, current scope tree, module stack). -/
structure InferState where
  effects : List (Nat × Effect) := []
  errors : List (Nat × ErrorTree) := []
  freshVarCounters : List (String × Nat) := []
  substitutions : Substitutions := []
  currentTable : LookupTable := []
  currentScopeTree : ScopeTree := .mk 0 []
  moduleStack : List TntModule := []

/-- The fresh state a run of inferEffects starts from. -/
def emptyInferState : InferState := {}

/-- The counter for a prefix, with the source default of 0 for an unseen
prefix (source: the get with nullish fallback in freshVar). -/
def getCounter (s : InferState) (pre : String) : Nat :=
  (assocGet? s.freshVarCounters pre).getD 0

/-- freshVar, translated from the source: read the per-prefix counter
(0 when unseen), store counter + 1, and return the prefix followed by the
decimal counter. -/
def freshVar (pre : String) (s : InferState) : String × InferState :=
  let counter := getCounter s pre
  (pre ++ natToStr counter,
   { s with freshVarCounters := assocSet s.freshVarCounters pre (counter + 1) })

/-- Whether a string starts with the given other string (models the String
startsWith used by newInstance on binding names). -/
def strStartsWith (s pre : String) : Bool :=
  List.isPrefixOf pre.data s.data

/-- The fresh-renaming substitution minted inside newInstance: one binding per
collected kinded name, each bound to a freshly named quantified value of the
matching kind (source: the subs construction in newInstance). -/
def newInstanceSubs : List KindedName → InferState → Substitutions × InferState
  | [], s => ([], s)
  | kn :: kns, s =>
    let fv := freshVar "v" s
    let b : Subst :=
      match kn.kind with
      | .effectKind => .effectSub kn.name (.quantified fv.1)
      | .variableKind => .varsSub kn.name (.quantified fv.1)
    let rest := newInstanceSubs kns fv.2
    (b :: rest.1, rest.2)

/-- newInstance, translated from the source: collect the quantified names of
the effect, mint a fresh renaming for each, compose only the renamings of
lambda-introduced names (names starting with e underscore) into the running
substitution (ignoring a composition failure), and return the renamed effect;
a failure to apply the renaming is a thrown internal error. -/
def newInstance (effect : Effect) (s : InferState) : Except String (Effect × InferState) :=
  let names := effectNames effect
  let minted := newInstanceSubs names s
  let subs := minted.1
  let s1 := minted.2
  let s2 :=
    match compose (List.filter (fun b => strStartsWith (Subst.name b) "e_") subs)
        s1.substitutions with
    | .ok comp => { s1 with substitutions := comp }
    | .error _ => s1
  match applySubstitution subs effect with
  | .ok result => .ok (result, s2)
  | .error err =>
    .error ("Error applying fresh names substitution: " ++ errorTreeToString err ++ " ")

/-- fetchSignature, translated from the source: a builtin signature is the
table entry applied to the arity; otherwise the previously inferred effect of
the resolved reference; a missing reference or missing effect is a thrown
internal error (the recoverable left channel of the returned Either is never
produced by the source).  The outer Except is the thrown-error channel; the
truthiness test of the source on the reference id treats 0 as missing. -/
def fetchSignature (B : Builtins) (opcode : String) (scope : Nat) (arity : Nat) (s : InferState) :
    Except String (Except String Effect × InferState) :=
  match assocGet? B opcode with
  | some signatureFunction =>
    (match newInstance (signatureFunction arity) s with
     | .ok (eff, s') => .ok (.ok eff, s')
     | .error m => .error m)
  | none =>
    match Option.bind (lookupValue s.currentTable s.currentScopeTree opcode scope)
        NameDefinition.reference with
    | some i =>
      if i ≠ 0 then
        match assocGet? s.effects i with
        | some eff =>
          (match newInstance eff s with
           | .ok (e2, s') => .ok (.ok e2, s')
           | .error m => .error m)
        | none => .error ("Signature not found for name: " ++ opcode)
      else .error ("Signature not found for name: " ++ opcode)
    | none => .error ("Signature not found for name: " ++ opcode)

/-- exitName, translated from the source: resolve the name (a failed lookup is
a thrown internal error) and dispatch on the definition kind: param copies the
placeholder effect installed at the binding site (missing reference or missing
effect is a thrown internal error; a reference id of 0 is falsy in the
source), const is pure, var reads exactly that variable, and any other kind
fetches the signature with the arity hard-coded to 2 (the error channel of
fetchSignature is ignored by the source map). -/
def exitName (B : Builtins) (exprId : Nat) (nm : String) (s : InferState) :
    Except String InferState :=
  match lookupValue s.currentTable s.currentScopeTree nm exprId with
  | none => .error ("Definition not found for name: " ++ nm)
  | some d =>
    match d.kind with
    | "param" =>
      (match d.reference with
       | some r =>
         if r ≠ 0 then
           match assocGet? s.effects r with
           | some paramEffect =>
             .ok { s with effects := assocSet s.effects exprId paramEffect }
           | none =>
             .error ("Couldnt find an effect for lambda parameter named " ++ nm ++ " in context")
         else
           .error ("Couldnt find an effect for lambda parameter named " ++ nm ++ " in context")
       | none =>
         .error ("Couldnt find an effect for lambda parameter named " ++ nm ++ " in context"))
    | "const" => .ok { s with effects := assocSet s.effects exprId pureEffect }
    | "var" =>
      let effect : Effect := .concrete (.concrete [nm]) emptyVariables emptyVariables
      .ok { s with effects := assocSet s.effects exprId effect }
    | _ =>
      match fetchSignature B nm exprId 2 s with
      | .error m => .error m
      | .ok (.ok sig, s') => .ok { s' with effects := assocSet s'.effects exprId sig }
      | .ok (.error _, s') => .ok s'

/-- The effects recorded for the application arguments (source: the non-null
map over this.effects.get of each argument id inside exitApp; a missing entry
is modelled as the crash it causes downstream in the source). -/
def argEffects (effects : List (Nat × Effect)) : List Nat → Except String (List Effect)
  | [] => .ok []
  | i :: is =>
    match assocGet? effects i, argEffects effects is with
    | some e, .ok es => .ok (e :: es)
    | none, _ => .error "effect not found for application argument"
    | _, .error m => .error m

/-- The eager rewrite of the stored effects map performed by exitApp on
success (source: the forEach over this.effects applying the composed
substitution, keeping an entry unchanged when its rewrite fails). -/
def rewriteEffects (scomb : Substitutions) (effects : List (Nat × Effect)) :
    List (Nat × Effect) :=
  List.map (fun p =>
    match applySubstitution scomb p.2 with
    | .ok e2 => (p.1, e2)
    | .error _ => p) effects

/-- exitApp, translated from the source: skip when any error is recorded;
fetch the operator signature (recording a reportable error if the fetch ever
returned left, which it does not); mint a fresh result variable; unify the
signature against the candidate arrow built from the argument effects; on
success compose into the running substitution, rewrite every stored effect
with the composed substitution (keeping entries whose rewrite fails), and set
this node effect to the substituted result variable; on a unification,
composition or application failure record a wrapped error at this node. -/
def exitApp (B : Builtins) (exprId : Nat) (opcode : String) (args : List TntEx)
    (s : InferState) : Except String InferState :=
  if s.errors.isEmpty then
    let location := "Trying to infer effect for operator application in " ++
      expressionToString (.app exprId opcode args)
    match fetchSignature B opcode exprId args.length s with
    | .error m => .error m
    | .ok (.error m, s1) =>
      .ok { s1 with errors := assocSet s1.errors exprId (.mk (some m) location []) }
    | .ok (.ok signature, s1) =>
      let fv := freshVar "e" s1
      let s2 := fv.2
      let resultEffect : Effect := .quantified fv.1
      match argEffects s2.effects (List.map TntEx.id args) with
      | .error m => .error m
      | .ok params =>
        let effect : Effect := .arrow params resultEffect
        match (unify signature effect).bind (fun su => compose su s2.substitutions) with
        | .error err =>
          .ok { s2 with errors := assocSet s2.errors exprId (.mk none location [err]) }
        | .ok scomb =>
          let s3 : InferState := { s2 with
            substitutions := scomb,
            effects := rewriteEffects scomb s2.effects }
          match applySubstitution scomb resultEffect with
          | .ok res => .ok { s3 with effects := assocSet s3.effects exprId res }
          | .error err =>
            .ok { s3 with errors := assocSet s3.errors exprId (.mk none location [err]) }
  else .ok s

/-- exitLiteral, translated from the source: literals are always pure. -/
def exitLiteral (exprId : Nat) (s : InferState) : InferState :=
  { s with effects := assocSet s.effects exprId pureEffect }

/-- exitOpDef, translated from the source: when the body has an effect, expose
it under the definition id; otherwise skip (the source also prints the
recorded errors to the console there, a leftover diagnostic with no effect on
the result data). -/
def exitOpDef (defId : Nat) (exprId : Nat) (s : InferState) : InferState :=
  match assocGet? s.effects exprId with
  | none => s
  | some e => { s with effects := assocSet s.effects defId e }

/-- exitLet, translated from the source: when any error is recorded anywhere
in the run, skip; otherwise propagate the effect of the trailing expression
unchanged (the non-null assertion of the source on that effect is modelled as
a fatal error; with no recorded errors every visited expression has an
effect, so the branch is unreachable). -/
def exitLet (exprId : Nat) (bodyId : Nat) (s : InferState) : Except String InferState :=
  if s.errors.isEmpty then
    match assocGet? s.effects bodyId with
    | some e => .ok { s with effects := assocSet s.effects exprId e }
    | none => .error "effect not found for let body"
  else .ok s

/-- The per-parameter step of enterLambda: when the parameter resolves to a
definition with a (truthy) reference id, install the quantified placeholder
named from the parameter and the lambda id at the binding site; otherwise
leave the state untouched. -/
def enterLambdaStep (lamId : Nat) (bodyId : Nat) (st : InferState) (p : String) : InferState :=
  match Option.bind (lookupValue st.currentTable st.currentScopeTree p bodyId)
      NameDefinition.reference with
  | some i =>
    if i ≠ 0 then
      { st with effects :=
          assocSet st.effects i (.quantified ("e_" ++ p ++ "_" ++ natToStr lamId)) }
    else st
  | none => st

/-- enterLambda, translated from the source: for each parameter that resolves
to a definition with a (truthy) reference id, install the quantified
placeholder named from the parameter and the lambda id at the binding site;
parameters without a resolvable reference are silently skipped. -/
def enterLambda (lamId : Nat) (params : List String) (bodyId : Nat) (s : InferState) :
    InferState :=
  List.foldl (enterLambdaStep lamId bodyId) s params

/-- exitLambda, translated from the source: when the body has an effect,
rebuild each parameter placeholder, apply the running substitution to each,
and install the arrow from the substituted parameter effects to the body
effect; a substitution failure on any parameter skips the node. -/
def exitLambda (lamId : Nat) (params : List String) (bodyId : Nat) (s : InferState) :
    InferState :=
  match assocGet? s.effects bodyId with
  | none => s
  | some resultEffect =>
    match applySubList s.substitutions
        (List.map (fun p => Effect.quantified ("e_" ++ p ++ "_" ++ natToStr lamId)) params) with
    | .ok ps => { s with effects := assocSet s.effects lamId (.arrow ps resultEffect) }
    | .error _ => s

/-- updateCurrentModule, translated from the source: when the module stack is
nonempty, switch the current table and scope tree to those of the innermost
module (a missing table, dereferenced with a non-null assertion in the
source, is modelled as a fatal error). -/
def updateCurrentModule (tables : LookupTableByModule) (s : InferState) :
    Except String InferState :=
  match s.moduleStack with
  | [] => .ok s
  | m :: _ =>
    match assocGet? tables m.name with
    | some t => .ok { s with currentTable := t, currentScopeTree := treeFromModule m }
    | none => .error ("lookup table not found for module " ++ m.name)

/-- enterModuleDef, translated from the source: push the module and refresh
the traversal context. -/
def enterModuleDef (tables : LookupTableByModule) (m : TntModule) (s : InferState) :
    Except String InferState :=
  updateCurrentModule tables { s with moduleStack := m :: s.moduleStack }

/-- exitModuleDef, translated from the source: pop the module and refresh the
traversal context. -/
def exitModuleDef (tables : LookupTableByModule) (s : InferState) :
    Except String InferState :=
  updateCurrentModule tables { s with moduleStack := s.moduleStack.tail }

mutual

/-- Modelled from the spec: the walker visits an expression depth first, post
order, siblings left to right, invoking the source visitor callbacks. -/
def walkEx (B : Builtins) (tables : LookupTableByModule) : TntEx → InferState →
    Except String InferState
  | .name i nm, s => exitName B i nm s
  | .app i op args, s =>
    (match walkExList B tables args s with
     | .error m => .error m
     | .ok s1 => exitApp B i op args s1)
  | .lam i ps e, s =>
    (match walkEx B tables e (enterLambda i ps (TntEx.id e) s) with
     | .error m => .error m
     | .ok s1 => .ok (exitLambda i ps (TntEx.id e) s1))
  | .letE i d e, s =>
    (match walkOpDef B tables d s with
     | .error m => .error m
     | .ok s1 =>
       match walkEx B tables e s1 with
       | .error m => .error m
       | .ok s2 => exitLet i (TntEx.id e) s2)
  | .bool i _, s => .ok (exitLiteral i s)
  | .int i _, s => .ok (exitLiteral i s)
  | .str i _, s => .ok (exitLiteral i s)

def walkExList (B : Builtins) (tables : LookupTableByModule) : List TntEx → InferState →
    Except String InferState
  | [], s => .ok s
  | e :: es, s =>
    (match walkEx B tables e s with
     | .error m => .error m
     | .ok s1 => walkExList B tables es s1)

def walkOpDef (B : Builtins) (tables : LookupTableByModule) : TntOpDef → InferState →
    Except String InferState
  | .mk i _ _ e, s =>
    (match walkEx B tables e s with
     | .error m => .error m
     | .ok s1 => .ok (exitOpDef i (TntEx.id e) s1))

end

mutual

/-- Modelled from the spec: walking a module-level definition; operator
definitions walk their body, state variables and constants have no callbacks,
nested modules are walked between the module enter and exit callbacks. -/
def walkDef (B : Builtins) (tables : LookupTableByModule) : TntDef → InferState →
    Except String InferState
  | .opdef d, s => walkOpDef B tables d s
  | .var _ _, s => .ok s
  | .const _ _, s => .ok s
  | .moduleDef _ (TntModule.mk mid mname ds), s =>
    (match enterModuleDef tables (.mk mid mname ds) s with
     | .error msg => .error msg
     | .ok s1 =>
       match walkDefList B tables ds s1 with
       | .error msg => .error msg
       | .ok s2 => exitModuleDef tables s2)

def walkDefList (B : Builtins) (tables : LookupTableByModule) : List TntDef → InferState →
    Except String InferState
  | [], s => .ok s
  | d :: ds, s =>
    (match walkDef B tables d s with
     | .error msg => .error msg
     | .ok s1 => walkDefList B tables ds s1)

end

/-- Modelled from the spec: walkModule walks one module; the module is wrapped
as a module definition so that the module enter and exit callbacks fire for
the top module too. -/
def walkModule (B : Builtins) (tables : LookupTableByModule) (m : TntModule) (s : InferState) :
    Except String InferState :=
  walkDef B tables (.moduleDef 0 m) s

/-- inferEffects, translated from the source: walk the module with a fresh
visitor; if any error was recorded return the whole error map (left),
otherwise return the whole effect map (right).  A thrown internal error of
the visitor surfaces as the outer error. -/
def inferEffects (B : Builtins) (tables : LookupTableByModule) (m : TntModule) :
    Except String (Sum (List (Nat × ErrorTree)) (List (Nat × Effect))) :=
  match walkModule B tables m emptyInferState with
  | .error msg => .error msg
  | .ok s => if s.errors.length > 0 then .ok (.inl s.errors) else .ok (.inr s.effects)

/-! Concrete fixtures used by the witnesses: a builtin table with the
signature of a one-argument operator over a quantified read set, an
arity-sensitive builtin, and small modules with their lookup tables. -/

/-- The effect reading exactly the state variable x. -/
def readXEffect : Effect := .concrete (.concrete ["x"]) emptyVariables emptyVariables

/-- A builtin table holding a one-parameter operator whose signature is
(Read[r1]) => Read[r1], the shape of the boolean negation builtin. -/
def notBuiltins : Builtins :=
  [("not", fun _ =>
    .arrow [.concrete (.quantified "r1") emptyVariables emptyVariables]
      (.concrete (.quantified "r1") emptyVariables emptyVariables))]

/-- A builtin table with an arity-sensitive signature: the template for arity
n is an arrow with n pure parameters. -/
def aritySensitiveBuiltins : Builtins :=
  [("g", fun n => .arrow (List.replicate n pureEffect) pureEffect)]

/-- C7 witness state: a current table declaring the state variable x. -/
def varState : InferState :=
  { emptyInferState with currentTable := [⟨"var", "x", some 2, none⟩] }

/-- C7: a name that resolves to a state-variable definition gets the effect
Concrete(read = exactly that name, update = empty, temporal = empty). -/
theorem exitName_var_read_effect (B : Builtins) (exprId : Nat) (nm : String)
    (s : InferState) (d : NameDefinition)
    (hlook : lookupValue s.currentTable s.currentScopeTree nm exprId = some d)
    (hkind : d.kind = "var") :
    exitName B exprId nm s =
      .ok { s with effects := assocSet s.effects exprId (Effect.concrete (.concrete [nm]) emptyVariables emptyVariables) } := by
  obtain ⟨k, idf, rf, sc⟩ := d
  have hk : k = "var" := hkind
  subst hk
  unfold exitName
  rw [hlook]
  rfl

/-- C7 witness: the theorem applied to the variable x read from node 5. -/
theorem exitName_var_read_effect_witness :
    exitName [] 5 "x" varState =
      .ok { varState with effects := assocSet varState.effects 5 (Effect.concrete (.concrete ["x"]) emptyVariables emptyVariables) } :=
  exitName_var_read_effect [] 5 "x" varState ⟨"var", "x", some 2, none⟩ (by rfl) rfl

/-- C9 witness state: a current table declaring the operator g (resolved as a
builtin by fetchSignature, so no reference is needed). -/
def opState : InferState :=
  { emptyInferState with currentTable := [⟨"def", "g", none, none⟩] }

/-- C9: a bare name reference that resolves to an operator-kind definition
(neither param, const nor var) fetches its signature with the arity
hard-coded to 2, whatever the operator arity is, and installs the fetched
instance (the dead left channel of fetchSignature is ignored). -/
theorem exitName_op_fetches_arity2 (B : Builtins) (exprId : Nat) (nm : String)
    (s : InferState) (d : NameDefinition)
    (hlook : lookupValue s.currentTable s.currentScopeTree nm exprId = some d)
    (h1 : d.kind ≠ "param") (h2 : d.kind ≠ "const") (h3 : d.kind ≠ "var") :
    exitName B exprId nm s =
      (match fetchSignature B nm exprId 2 s with
       | .error m => .error m
       | .ok (.ok sig, s') => .ok { s' with effects := assocSet s'.effects exprId sig }
       | .ok (.error _, s') => .ok s') := by
  obtain ⟨k, idf, rf, sc⟩ := d
  have h1' : k ≠ "param" := h1
  have h2' : k ≠ "const" := h2
  have h3' : k ≠ "var" := h3
  unfold exitName
  rw [hlook]
  dsimp only
  split
  · simp_all
  · simp_all
  · simp_all
  · rfl

/-- C9 witness: the arity-sensitive builtin g referenced bare from node 7 is
installed at the arity-2 variant of its template: an arrow with exactly two
pure parameters. -/
theorem exitName_op_fetches_arity2_witness :
    exitName aritySensitiveBuiltins 7 "g" opState =
      .ok { opState with effects := assocSet opState.effects 7 (.arrow [pureEffect, pureEffect] pureEffect) } := by
  have h := exitName_op_fetches_arity2 aritySensitiveBuiltins 7 "g" opState
    ⟨"def", "g", none, none⟩ (by rfl) (by decide) (by decide) (by decide)
  rw [h]
  rfl

/-- C10: a lambda parameter whose resolution yields no reference id gets no
placeholder installed by enterLambda and no error entry (the state is
returned unchanged), and a later name reference resolving to a param-kind
definition without a reference id aborts with a thrown internal error rather
than recording an entry in the error map. -/
theorem enterLambda_missing_reference_silent :
    (∀ (lamId : Nat) (p : String) (bodyId : Nat) (s : InferState),
      Option.bind (lookupValue s.currentTable s.currentScopeTree p bodyId)
        NameDefinition.reference = none →
      enterLambda lamId [p] bodyId s = s) ∧
    (∀ (B : Builtins) (exprId : Nat) (nm : String) (s : InferState) (d : NameDefinition),
      lookupValue s.currentTable s.currentScopeTree nm exprId = some d →
      d.kind = "param" → d.reference = none →
      exitName B exprId nm s =
        .error ("Couldnt find an effect for lambda parameter named " ++ nm ++ " in context")) := by
  constructor
  · intro lamId p bodyId s h
    simp [enterLambda, enterLambdaStep, h]
  · intro B exprId nm s d hlook hkind href
    obtain ⟨k, idf, rf, sc⟩ := d
    have hk : k = "param" := hkind
    have hr : rf = none := href
    subst hk
    subst hr
    unfold exitName
    rw [hlook]
    rfl

/-- C10 witness state: a table resolving the parameter p to a param-kind
definition that carries no reference id. -/
def brokenParamState : InferState :=
  { emptyInferState with currentTable := [⟨"param", "p", none, none⟩] }

/-- C10 witness: at the broken-param fixture, enterLambda leaves the state
unchanged and the later reference throws. -/
theorem enterLambda_missing_reference_silent_witness :
    enterLambda 3 ["p"] 4 brokenParamState = brokenParamState ∧
    exitName [] 5 "p" brokenParamState =
      .error ("Couldnt find an effect for lambda parameter named " ++ "p" ++ " in context") :=
  ⟨enterLambda_missing_reference_silent.1 3 "p" 4 brokenParamState (by rfl),
   enterLambda_missing_reference_silent.2 [] 5 "p" brokenParamState
     ⟨"param", "p", none, none⟩ (by rfl) rfl rfl⟩

/-- C6 fixture: lookup table for a module declaring var x, an operator f whose
body is the let-in expression val y = x followed by y (y scoped to the let
node). -/
def letTable : LookupTable :=
  [⟨"var", "x", some 2, none⟩, ⟨"def", "f", some 3, none⟩, ⟨"val", "y", some 5, some 4⟩]

/-- C6 fixture: the module with the let-in expression (node 4), binding y
(definition node 5) to x (node 6) and ending in the reference y (node 7). -/
def letModule : TntModule :=
  .mk 1 "m" [.var 2 "x",
    .opdef (.mk 3 "f" "def" (.letE 4 (.mk 5 "y" "val" (.name 6 "x")) (.name 7 "y")))]

/-- C6 fixture: the effect map produced by the run on the let module. -/
def letRunEffects : List (Nat × Effect) :=
  [(6, readXEffect), (5, readXEffect), (7, readXEffect), (4, readXEffect), (3, readXEffect)]

/-- C6: with no recorded error, a let-in node receives exactly the effect
already inferred for its trailing expression; with any recorded error the
state is returned unchanged (no effect set, no new error); and on the
concrete program val y = x followed by y, the effect inferred for the use of
y equals the effect inferred for x. -/
theorem exitLet_propagates_trailing_effect :
    (∀ (exprId bodyId : Nat) (s : InferState) (e : Effect),
      s.errors = [] → assocGet? s.effects bodyId = some e →
      exitLet exprId bodyId s = .ok { s with effects := assocSet s.effects exprId e }) ∧
    (∀ (exprId bodyId : Nat) (s : InferState),
      s.errors ≠ [] → exitLet exprId bodyId s = .ok s) ∧
    (inferEffects [] [("m", letTable)] letModule = .ok (.inr letRunEffects) ∧
     assocGet? letRunEffects 7 = assocGet? letRunEffects 6 ∧
     assocGet? letRunEffects 6 = some readXEffect) := by
  refine ⟨?_, ?_, by rfl, by rfl, by rfl⟩
  · intro exprId bodyId s e h1 h2
    simp [exitLet, h1, h2]
  · intro exprId bodyId s h
    cases herr : s.errors with
    | nil => exact absurd herr h
    | cons a t => simp [exitLet, herr]

/-- C6 witness: the generic parts applied at a concrete state holding an
effect for the trailing expression, and at a state with a recorded error. -/
theorem exitLet_propagates_trailing_effect_witness :
    exitLet 4 7 { emptyInferState with effects := [(7, readXEffect)] } =
      .ok { emptyInferState with effects := assocSet [(7, readXEffect)] 4 readXEffect } ∧
    exitLet 4 7 { emptyInferState with errors := [(3, unifyErr "boom")] } =
      .ok { emptyInferState with errors := [(3, unifyErr "boom")] } :=
  ⟨exitLet_propagates_trailing_effect.1 4 7 { emptyInferState with effects := [(7, readXEffect)] }
      readXEffect rfl rfl,
   exitLet_propagates_trailing_effect.2.1 4 7
      { emptyInferState with errors := [(3, unifyErr "boom")] } (by simp)⟩

/-- C4 fixture: a module whose only definition binds a literal. -/
def pureModule : TntModule := .mk 1 "m" [.opdef (.mk 2 "A" "def" (.bool 3 true))]

/-- C4 fixture: the lookup table of the pure module. -/
def pureTables : LookupTableByModule := [("m", [⟨"def", "A", some 2, none⟩])]

/-- C4 fixture: the final visitor state of the run on the pure module. -/
def pureRunState : InferState :=
  (walkModule [] pureTables pureModule emptyInferState).toOption.getD emptyInferState

/-- C4: inferEffects returns the error map (left) exactly when the traversal
recorded at least one error; the returned error map is the entire recorded
error map (the success map is discarded from the left result), and with no
recorded error the entire effect map is returned (right). -/
theorem inferEffects_result_partition (B : Builtins) (tables : LookupTableByModule)
    (m : TntModule) (s : InferState)
    (h : walkModule B tables m emptyInferState = .ok s) :
    ((∃ em, inferEffects B tables m = .ok (.inl em)) ↔ s.errors ≠ []) ∧
    (∀ em, inferEffects B tables m = .ok (.inl em) → em = s.errors) ∧
    (s.errors = [] → inferEffects B tables m = .ok (.inr s.effects)) := by
  unfold inferEffects
  rw [h]
  cases herr : s.errors with
  | nil =>
    refine ⟨⟨?_, ?_⟩, ?_, ?_⟩
    · rintro ⟨em, hem⟩
      simp [herr] at hem
    · intro hne; exact absurd rfl hne
    · intro em hem; simp [herr] at hem
    · intro _; simp [herr]
  | cons a t =>
    refine ⟨⟨?_, ?_⟩, ?_, ?_⟩
    · intro _; simp
    · intro _
      exact ⟨a :: t, by simp [herr]⟩
    · intro em hem
      simp [herr] at hem
      exact hem.symm
    · intro hempty
      exact List.noConfusion hempty

/-- C4 witness: on the pure module the run records no error and inferEffects
returns the full effect map. -/
theorem inferEffects_result_partition_witness :
    inferEffects [] pureTables pureModule = .ok (.inr pureRunState.effects) ∧
    pureRunState.effects = [(3, pureEffect), (2, pureEffect)] :=
  ⟨(inferEffects_result_partition [] pureTables pureModule pureRunState (by rfl)).2.2 (by rfl),
   by rfl⟩

/-- C2 fixture: a module whose first definition applies the one-parameter
operator to two arguments (an arity mismatch recorded as a unification error)
and whose second, independent definition applies the same operator
correctly. -/
def mismatchModule : TntModule :=
  .mk 1 "m" [.opdef (.mk 2 "A" "def" (.app 3 "not" [.bool 4 true, .bool 5 false])),
             .opdef (.mk 6 "B" "def" (.app 7 "not" [.bool 8 true]))]

/-- C2 fixture: the lookup table of the mismatch module. -/
def mismatchTables : LookupTableByModule :=
  [("m", [⟨"def", "A", some 2, none⟩, ⟨"def", "B", some 6, none⟩])]

/-- C2 fixture: the final visitor state of the run on the mismatch module. -/
def mismatchRunState : InferState :=
  (walkModule notBuiltins mismatchTables mismatchModule emptyInferState).toOption.getD
    emptyInferState

/-- C2 evidence: on the mismatch module, the only recorded error is at the
failing application (node 3), the valid sibling application (node 7) has no
error of its own and error-free arguments (node 8 got its effect), yet its
inference was skipped: no effect is recorded for node 7, because the source
skips application inference whenever any error exists anywhere in the run,
not only when the application arguments themselves failed. -/
theorem inferEffects_unrelated_error_suppresses_app :
    List.map Prod.fst mismatchRunState.errors = [3] ∧
    assocGet? mismatchRunState.effects 8 = some pureEffect ∧
    assocGet? mismatchRunState.effects 7 = none ∧
    inferEffects notBuiltins mismatchTables mismatchModule = .ok (.inl mismatchRunState.errors) :=
  ⟨by rfl, by rfl, by rfl, by rfl⟩

/-- C3 fixture: a module applying an operator name that no builtin and no
table entry resolves. -/
def undefModule : TntModule := .mk 1 "m" [.opdef (.mk 2 "A" "def" (.app 3 "undef" [.bool 4 true]))]

/-- C3 fixture: the lookup table of the undef module (the applied name undef
is absent). -/
def undefTables : LookupTableByModule := [("m", [⟨"def", "A", some 2, none⟩])]

/-- C3 evidence: an application of an operator with no discoverable signature
aborts the whole inference with a thrown internal error (the outer error
channel), and no run ever returns a recorded error map for it: fetchSignature
throws instead of producing the recoverable left result that exitApp is
prepared to record. -/
theorem fetchSignature_unresolved_throws :
    inferEffects [] undefTables undefModule = .error "Signature not found for name: undef" ∧
    ∀ em, inferEffects [] undefTables undefModule ≠ .ok (.inl em) := by
  have h0 : inferEffects [] undefTables undefModule =
      .error "Signature not found for name: undef" := by rfl
  refine ⟨h0, ?_⟩
  intro em h
  rw [h0] at h
  exact Except.noConfusion h

/-- C1: when the fetched signature of an application unifies against the
candidate arrow built from the argument effects and the fresh result
variable, and the unification substitution composes with the running
substitution, exitApp stores the composed substitution as the new running
substitution, rewrites every effect already stored in the effects map with
it (in place), and sets the application node effect to the composed
substitution applied to the fresh result variable. -/
theorem exitApp_success_updates (B : Builtins) (exprId : Nat) (opcode : String)
    (args : List TntEx) (s : InferState) (sig : Effect) (s1 : InferState)
    (params : List Effect) (su scomb : Substitutions) (res : Effect)
    (herr : s.errors = [])
    (hfetch : fetchSignature B opcode exprId args.length s = .ok (.ok sig, s1))
    (hargs : argEffects (freshVar "e" s1).2.effects (List.map TntEx.id args) = .ok params)
    (hunify : unify sig (.arrow params (.quantified (freshVar "e" s1).1)) = .ok su)
    (hcomp : compose su (freshVar "e" s1).2.substitutions = .ok scomb)
    (happly : applySubstitution scomb (.quantified (freshVar "e" s1).1) = .ok res) :
    exitApp B exprId opcode args s = .ok
      { (freshVar "e" s1).2 with
        substitutions := scomb,
        effects := assocSet (rewriteEffects scomb (freshVar "e" s1).2.effects) exprId res } := by
  unfold exitApp
  rw [herr]
  dsimp only [List.isEmpty]
  rw [hfetch]
  dsimp only
  rw [hargs]
  dsimp only
  rw [hunify]
  dsimp only [Except.bind]
  rw [hcomp]
  dsimp only
  rw [happly]
  rfl

/-- C1 witness state: the argument expression (node 5) already carries the
effect reading x. -/
def appState : InferState := { emptyInferState with effects := [(5, readXEffect)] }

/-- C1 witness: the fresh instance of the one-parameter builtin signature. -/
def appSigW : Effect :=
  .arrow [.concrete (.quantified "v0") emptyVariables emptyVariables]
    (.concrete (.quantified "v0") emptyVariables emptyVariables)

/-- C1 witness: the state after the signature fetch (the renaming bumped the
v counter). -/
def appS1W : InferState := { appState with freshVarCounters := [("v", 1)] }

/-- C1 witness: the substitution learned by unifying the signature against
the candidate arrow: the signature read set is bound to x and the fresh
result variable e0 to the read-x effect. -/
def appSuW : Substitutions := [.varsSub "v0" (.concrete ["x"]), .effectSub "e0" readXEffect]

/-- C1 witness: the theorem applied to the application not(x) at node 10,
with every hypothesis discharged by evaluation. -/
theorem exitApp_success_updates_witness :
    exitApp notBuiltins 10 "not" [.name 5 "x"] appState = .ok
      { (freshVar "e" appS1W).2 with
        substitutions := appSuW,
        effects := assocSet (rewriteEffects appSuW (freshVar "e" appS1W).2.effects) 10 readXEffect } :=
  exitApp_success_updates notBuiltins 10 "not" [.name 5 "x"] appState appSigW appS1W
    [readXEffect] appSuW appSuW readXEffect rfl rfl rfl rfl rfl rfl

/-- The name of the fresh quantified value a renaming binding maps to. -/
def substFreshName : Subst → String
  | .effectSub _ (.quantified v) => v
  | .varsSub _ (.quantified v) => v
  | _ => ""

theorem newInstanceSubs_substitutions : ∀ (ns : List KindedName) (s : InferState),
    (newInstanceSubs ns s).2.substitutions = s.substitutions := by
  intro ns
  induction ns with
  | nil => intro s; rfl
  | cons kn kns ih =>
    intro s
    simp only [newInstanceSubs]
    exact ih (freshVar "v" s).2

theorem newInstanceSubs_names : ∀ (ns : List KindedName) (s : InferState),
    List.map Subst.name (newInstanceSubs ns s).1 = List.map KindedName.name ns := by
  intro ns
  induction ns with
  | nil => intro s; rfl
  | cons kn kns ih =>
    intro s
    simp only [newInstanceSubs, List.map_cons]
    refine congrArg₂ (· :: ·) ?_ (ih (freshVar "v" s).2)
    cases hk : kn.kind <;> simp [Subst.name]

theorem getCounter_freshVar_self (s : InferState) (p : String) :
    getCounter (freshVar p s).2 p = getCounter s p + 1 := by
  simp [freshVar, getCounter, assocGet?_set_eq]

theorem newInstanceSubs_value_names : ∀ (ns : List KindedName) (s : InferState),
    List.map substFreshName (newInstanceSubs ns s).1 =
      List.map (fun i => "v" ++ natToStr (getCounter s "v" + i)) (List.range ns.length) := by
  intro ns
  induction ns with
  | nil => intro s; rfl
  | cons kn kns ih =>
    intro s
    simp only [newInstanceSubs, List.map_cons, List.length_cons, List.range_succ_eq_map,
      List.map_map]
    refine congrArg₂ (· :: ·) ?_ ?_
    · cases hk : kn.kind <;> simp [substFreshName, freshVar]
    · rw [ih (freshVar "v" s).2]
      refine List.map_congr_left ?_
      intro i _
      simp only [Function.comp]
      rw [getCounter_freshVar_self]
      have harg : getCounter s "v" + 1 + i = getCounter s "v" + i.succ := by omega
      rw [harg]

theorem freshName_inj : ∀ i j : Nat, ("v" ++ natToStr i) = ("v" ++ natToStr j) → i = j := by
  intro i j h
  exact natToStr_inj i j (string_append_left_cancel h)

theorem newInstanceSubs_value_names_nodup (ns : List KindedName) (s : InferState) :
    (List.map substFreshName (newInstanceSubs ns s).1).Nodup := by
  rw [newInstanceSubs_value_names]
  refine List.Nodup.map ?_ (List.nodup_range _)
  intro i j h
  have := freshName_inj (getCounter s "v" + i) (getCounter s "v" + j) h
  omega

theorem applyToSubstValues_names : ∀ (n e r : Substitutions),
    applyToSubstValues n e = .ok r → List.map Subst.name r = List.map Subst.name e := by
  intro n e
  induction e with
  | nil => intro r h; cases h; rfl
  | cons b bs ih =>
    intro r h
    cases b with
    | effectSub nm v =>
      simp only [applyToSubstValues] at h
      cases hv : applySubstitution n v with
      | error e => rw [hv] at h; simp at h
      | ok v' =>
        rw [hv] at h
        cases hr : applyToSubstValues n bs with
        | error e => rw [hr] at h; simp at h
        | ok rest' =>
          rw [hr] at h
          dsimp only at h
          cases h
          simp [Subst.name, ih rest' hr]
    | varsSub nm v =>
      simp only [applyToSubstValues] at h
      cases hv : applyToVars n v with
      | error e => rw [hv] at h; simp at h
      | ok v' =>
        rw [hv] at h
        cases hr : applyToSubstValues n bs with
        | error e => rw [hr] at h; simp at h
        | ok rest' =>
          rw [hr] at h
          dsimp only at h
          cases h
          simp [Subst.name, ih rest' hr]

theorem compose_keys (a b c : Substitutions) (h : compose a b = .ok c) :
    ∀ x ∈ c, Subst.name x ∈ List.map Subst.name b ∨ x ∈ a := by
  intro x hx
  unfold compose at h
  cases hr : applyToSubstValues a b with
  | error e => rw [hr] at h; cases h
  | ok rewritten =>
    rw [hr] at h
    cases h
    rcases List.mem_append.mp hx with hl | hrr
    · left
      rw [← applyToSubstValues_names a b rewritten hr]
      exact List.mem_map_of_mem _ hl
    · right
      exact List.mem_of_mem_filter hrr

/-- C5: newInstance mints one renaming binding per quantified name reachable
in the fetched signature, each to a fresh, pairwise distinct quantified
value; the returned effect is the renaming applied to the signature; the new
running substitution is exactly the composition of the renamings of
lambda-convention names (those starting with e underscore) into the previous
one (left unchanged when that composition fails); and no renaming of any
other (builtin-signature) name is ever persisted: every key of the new
running substitution is a lambda-convention name or a key that was already
there. -/
theorem newInstance_persists_only_lambda_renamings (effect : Effect) (s : InferState)
    (eff' : Effect) (s' : InferState)
    (h : newInstance effect s = .ok (eff', s')) :
    List.map Subst.name (newInstanceSubs (effectNames effect) s).1 =
      List.map KindedName.name (effectNames effect) ∧
    (List.map substFreshName (newInstanceSubs (effectNames effect) s).1).Nodup ∧
    applySubstitution (newInstanceSubs (effectNames effect) s).1 effect = .ok eff' ∧
    s'.substitutions =
      (match compose (List.filter (fun b => strStartsWith (Subst.name b) "e_")
          (newInstanceSubs (effectNames effect) s).1) s.substitutions with
       | .ok comp => comp
       | .error _ => s.substitutions) ∧
    (∀ b ∈ s'.substitutions,
      strStartsWith (Subst.name b) "e_" = true ∨
      Subst.name b ∈ List.map Subst.name s.substitutions) := by
  unfold newInstance at h
  dsimp only at h
  rw [newInstanceSubs_substitutions (effectNames effect) s] at h
  cases happly : applySubstitution (newInstanceSubs (effectNames effect) s).1 effect with
  | error err => rw [happly] at h; cases h
  | ok result =>
    rw [happly] at h
    cases hcomp : compose (List.filter (fun b => strStartsWith (Subst.name b) "e_")
        (newInstanceSubs (effectNames effect) s).1) s.substitutions with
    | ok comp =>
      rw [hcomp] at h
      cases h
      refine ⟨newInstanceSubs_names _ _, newInstanceSubs_value_names_nodup _ _, rfl, rfl, ?_⟩
      intro b hb
      dsimp only at hb
      rcases compose_keys _ _ _ hcomp b hb with hl | hr
      · right; exact hl
      · left; exact (List.mem_filter.mp hr).2
    | error err =>
      rw [hcomp] at h
      cases h
      refine ⟨newInstanceSubs_names _ _, newInstanceSubs_value_names_nodup _ _, rfl, ?_, ?_⟩
      · simp [newInstanceSubs_substitutions]
      · intro b hb
        dsimp only at hb
        rw [newInstanceSubs_substitutions] at hb
        right
        exact List.mem_map_of_mem _ hb

/-- C5 witness fixture: a signature mixing a lambda-convention effect
variable and a builtin-convention variable-set variable. -/
def mixedSignature : Effect :=
  .arrow [.quantified "e_p_3"] (.concrete (.quantified "r1") emptyVariables emptyVariables)

/-- C5 witness fixture: the result of newInstance on the mixed signature from
the empty state. -/
def mixedInstanceRun : Effect × InferState :=
  (newInstance mixedSignature emptyInferState).toOption.getD (pureEffect, emptyInferState)

/-- C5 witness: the minted fresh names are pairwise distinct, and only the
renaming of the lambda-convention name is persisted into the running
substitution (the builtin-convention renaming r1 to v1 is not). -/
theorem newInstance_persists_only_lambda_renamings_witness :
    (List.map substFreshName (newInstanceSubs (effectNames mixedSignature) emptyInferState).1).Nodup ∧
    mixedInstanceRun.2.substitutions = [.effectSub "e_p_3" (.quantified "v0")] ∧
    mixedInstanceRun.1 = .arrow [.quantified "v0"] (.concrete (.quantified "v1") emptyVariables emptyVariables) :=
  have h := newInstance_persists_only_lambda_renamings mixedSignature emptyInferState
    mixedInstanceRun.1 mixedInstanceRun.2 (by rfl)
  ⟨h.2.1, by rfl, by rfl⟩

/-- Pointwise comparison of the fresh-variable counters of two states: every
prefix counter of the first is at most that of the second. -/
def countersLe (s s' : InferState) : Prop :=
  ∀ p, getCounter s p ≤ getCounter s' p

theorem countersLe_refl (s : InferState) : countersLe s s := fun _ => le_refl _

theorem countersLe_trans {a b c : InferState} (h1 : countersLe a b) (h2 : countersLe b c) :
    countersLe a c := fun p => le_trans (h1 p) (h2 p)

theorem countersLe_of_counters_eq {s s' : InferState}
    (h : s'.freshVarCounters = s.freshVarCounters) : countersLe s s' := by
  intro p
  simp [getCounter, h]

theorem getCounter_freshVar_mono (s : InferState) (p q : String) :
    getCounter s q ≤ getCounter (freshVar p s).2 q := by
  by_cases h : q = p
  · subst h
    rw [getCounter_freshVar_self]
    omega
  · simp [freshVar, getCounter, assocGet?_set_ne _ _ _ _ h]

theorem freshVar_countersLe (s : InferState) (p : String) : countersLe s (freshVar p s).2 :=
  fun q => getCounter_freshVar_mono s p q

theorem newInstanceSubs_countersLe : ∀ (ns : List KindedName) (s : InferState),
    countersLe s (newInstanceSubs ns s).2 := by
  intro ns
  induction ns with
  | nil => intro s; exact countersLe_refl s
  | cons kn kns ih =>
    intro s
    exact countersLe_trans (freshVar_countersLe s "v") (ih (freshVar "v" s).2)

theorem newInstance_countersLe (eff : Effect) (s : InferState) (e' : Effect) (s' : InferState)
    (h : newInstance eff s = .ok (e', s')) : countersLe s s' := by
  unfold newInstance at h
  dsimp only at h
  cases happly : applySubstitution (newInstanceSubs (effectNames eff) s).1 eff with
  | error err => rw [happly] at h; exact Except.noConfusion h
  | ok result =>
    rw [happly] at h
    cases hcomp : compose (List.filter (fun b => strStartsWith (Subst.name b) "e_")
        (newInstanceSubs (effectNames eff) s).1) (newInstanceSubs (effectNames eff) s).2.substitutions with
    | ok comp =>
      rw [hcomp] at h
      cases h
      exact countersLe_trans (newInstanceSubs_countersLe _ s) (countersLe_of_counters_eq rfl)
    | error err =>
      rw [hcomp] at h
      cases h
      exact newInstanceSubs_countersLe _ s

theorem fetchSignature_countersLe (B : Builtins) (opcode : String) (scope arity : Nat)
    (s : InferState) (inner : Except String Effect) (s' : InferState)
    (h : fetchSignature B opcode scope arity s = .ok (inner, s')) : countersLe s s' := by
  unfold fetchSignature at h
  cases hb : assocGet? B opcode with
  | some f =>
    rw [hb] at h
    dsimp only at h
    cases hni : newInstance (f arity) s with
    | error m => rw [hni] at h; exact Except.noConfusion h
    | ok pr =>
      obtain ⟨e2, s2⟩ := pr
      rw [hni] at h
      dsimp only at h
      cases h
      exact newInstance_countersLe _ _ _ _ hni
  | none =>
    rw [hb] at h
    dsimp only at h
    cases hl : Option.bind (lookupValue s.currentTable s.currentScopeTree opcode scope)
        NameDefinition.reference with
    | none => rw [hl] at h; exact Except.noConfusion h
    | some i =>
      rw [hl] at h
      dsimp only at h
      by_cases hi : i ≠ 0
      · rw [if_pos hi] at h
        cases he : assocGet? s.effects i with
        | none => rw [he] at h; exact Except.noConfusion h
        | some eff =>
          rw [he] at h
          dsimp only at h
          cases hni : newInstance eff s with
          | error m => rw [hni] at h; exact Except.noConfusion h
          | ok pr =>
            obtain ⟨e2, s2⟩ := pr
            rw [hni] at h
            dsimp only at h
            cases h
            exact newInstance_countersLe _ _ _ _ hni
      · rw [if_neg hi] at h
        exact Except.noConfusion h

theorem exitName_countersLe (B : Builtins) (exprId : Nat) (nm : String) (s s' : InferState)
    (h : exitName B exprId nm s = .ok s') : countersLe s s' := by
  unfold exitName at h
  cases hl : lookupValue s.currentTable s.currentScopeTree nm exprId with
  | none => rw [hl] at h; exact Except.noConfusion h
  | some d =>
    rw [hl] at h
    dsimp only at h
    split at h
    · -- param kind
      split at h
      · split at h
        · split at h
          · cases h; exact countersLe_of_counters_eq rfl
          · exact Except.noConfusion h
        · exact Except.noConfusion h
      · exact Except.noConfusion h
    · -- const kind
      cases h; exact countersLe_of_counters_eq rfl
    · -- var kind
      cases h; exact countersLe_of_counters_eq rfl
    · -- operator kinds
      cases hf : fetchSignature B nm exprId 2 s with
      | error m => rw [hf] at h; exact Except.noConfusion h
      | ok pr =>
        obtain ⟨inner, s2⟩ := pr
        rw [hf] at h
        cases inner with
        | ok sig =>
          dsimp only at h
          cases h
          exact countersLe_trans (fetchSignature_countersLe B nm exprId 2 s _ _ hf)
            (countersLe_of_counters_eq rfl)
        | error m =>
          dsimp only at h
          cases h
          exact fetchSignature_countersLe B nm exprId 2 s _ _ hf

theorem exitApp_countersLe (B : Builtins) (exprId : Nat) (opcode : String) (args : List TntEx)
    (s s' : InferState) (h : exitApp B exprId opcode args s = .ok s') : countersLe s s' := by
  unfold exitApp at h
  by_cases he : s.errors.isEmpty = true
  · rw [if_pos he] at h
    cases hf : fetchSignature B opcode exprId args.length s with
    | error m => rw [hf] at h; exact Except.noConfusion h
    | ok pr =>
      obtain ⟨inner, s1⟩ := pr
      rw [hf] at h
      cases inner with
      | error m =>
        dsimp only at h
        cases h
        exact countersLe_trans (fetchSignature_countersLe B opcode exprId args.length s _ _ hf)
          (countersLe_of_counters_eq rfl)
      | ok sig =>
        dsimp only at h
        have hmono1 : countersLe s (freshVar "e" s1).2 :=
          countersLe_trans (fetchSignature_countersLe B opcode exprId args.length s _ _ hf)
            (freshVar_countersLe s1 "e")
        cases ha : argEffects (freshVar "e" s1).2.effects (List.map TntEx.id args) with
        | error m => rw [ha] at h; exact Except.noConfusion h
        | ok params =>
          rw [ha] at h
          dsimp only at h
          cases hu : (unify sig (.arrow params (.quantified (freshVar "e" s1).1))).bind
              (fun su => compose su (freshVar "e" s1).2.substitutions) with
          | error err =>
            rw [hu] at h
            cases h
            exact countersLe_trans hmono1 (countersLe_of_counters_eq rfl)
          | ok scomb =>
            rw [hu] at h
            dsimp only at h
            cases hap : applySubstitution scomb (.quantified (freshVar "e" s1).1) with
            | ok res =>
              rw [hap] at h
              cases h
              exact countersLe_trans hmono1 (countersLe_of_counters_eq rfl)
            | error err =>
              rw [hap] at h
              cases h
              exact countersLe_trans hmono1 (countersLe_of_counters_eq rfl)
  · rw [if_neg he] at h
    cases h
    exact countersLe_refl s

theorem exitLiteral_counters (i : Nat) (s : InferState) :
    (exitLiteral i s).freshVarCounters = s.freshVarCounters := rfl

theorem exitOpDef_counters (d e : Nat) (s : InferState) :
    (exitOpDef d e s).freshVarCounters = s.freshVarCounters := by
  unfold exitOpDef
  split <;> rfl

theorem exitLet_counters (i b : Nat) (s s' : InferState) (h : exitLet i b s = .ok s') :
    s'.freshVarCounters = s.freshVarCounters := by
  unfold exitLet at h
  split at h
  · split at h
    · cases h; rfl
    · exact Except.noConfusion h
  · cases h; rfl

theorem enterLambdaStep_counters (l b : Nat) (st : InferState) (p : String) :
    (enterLambdaStep l b st p).freshVarCounters = st.freshVarCounters := by
  unfold enterLambdaStep
  split
  · split <;> rfl
  · rfl

theorem enterLambda_counters (l : Nat) (ps : List String) (b : Nat) (s : InferState) :
    (enterLambda l ps b s).freshVarCounters = s.freshVarCounters := by
  unfold enterLambda
  induction ps generalizing s with
  | nil => rfl
  | cons p pr ih => rw [List.foldl_cons, ih, enterLambdaStep_counters]

theorem exitLambda_counters (l : Nat) (ps : List String) (b : Nat) (s : InferState) :
    (exitLambda l ps b s).freshVarCounters = s.freshVarCounters := by
  unfold exitLambda
  split
  · rfl
  · split <;> rfl

theorem updateCurrentModule_counters (T : LookupTableByModule) (s s' : InferState)
    (h : updateCurrentModule T s = .ok s') : s'.freshVarCounters = s.freshVarCounters := by
  unfold updateCurrentModule at h
  split at h
  · cases h; rfl
  · split at h
    · cases h; rfl
    · exact Except.noConfusion h

theorem enterModuleDef_counters (T : LookupTableByModule) (m : TntModule) (s s' : InferState)
    (h : enterModuleDef T m s = .ok s') : s'.freshVarCounters = s.freshVarCounters := by
  unfold enterModuleDef at h
  exact updateCurrentModule_counters T { s with moduleStack := m :: s.moduleStack } s' h

theorem exitModuleDef_counters (T : LookupTableByModule) (s s' : InferState)
    (h : exitModuleDef T s = .ok s') : s'.freshVarCounters = s.freshVarCounters := by
  unfold exitModuleDef at h
  exact updateCurrentModule_counters T { s with moduleStack := s.moduleStack.tail } s' h

mutual

theorem walkEx_countersLe (B : Builtins) (T : LookupTableByModule) :
    ∀ (ex : TntEx) (s s' : InferState), walkEx B T ex s = .ok s' → countersLe s s'
  | .name i nm, s, s', h => by
    simp only [walkEx] at h
    exact exitName_countersLe B i nm s s' h
  | .app i op args, s, s', h => by
    simp only [walkEx] at h
    cases hw : walkExList B T args s with
    | error m => rw [hw] at h; exact Except.noConfusion h
    | ok s1 =>
      rw [hw] at h
      dsimp only at h
      exact countersLe_trans (walkExList_countersLe B T args s s1 hw)
        (exitApp_countersLe B i op args s1 s' h)
  | .lam i ps e, s, s', h => by
    simp only [walkEx] at h
    cases hw : walkEx B T e (enterLambda i ps (TntEx.id e) s) with
    | error m => rw [hw] at h; exact Except.noConfusion h
    | ok s1 =>
      rw [hw] at h
      dsimp only at h
      cases h
      exact countersLe_trans
        (countersLe_of_counters_eq (enterLambda_counters i ps (TntEx.id e) s))
        (countersLe_trans (walkEx_countersLe B T e _ _ hw)
          (countersLe_of_counters_eq (exitLambda_counters i ps (TntEx.id e) s1)))
  | .letE i d e, s, s', h => by
    simp only [walkEx] at h
    cases hw : walkOpDef B T d s with
    | error m => rw [hw] at h; exact Except.noConfusion h
    | ok s1 =>
      rw [hw] at h
      dsimp only at h
      cases hw2 : walkEx B T e s1 with
      | error m => rw [hw2] at h; exact Except.noConfusion h
      | ok s2 =>
        rw [hw2] at h
        dsimp only at h
        exact countersLe_trans (walkOpDef_countersLe B T d s s1 hw)
          (countersLe_trans (walkEx_countersLe B T e s1 s2 hw2)
            (countersLe_of_counters_eq (exitLet_counters i (TntEx.id e) s2 s' h)))
  | .bool i v, s, s', h => by
    simp only [walkEx] at h
    cases h
    exact countersLe_of_counters_eq (exitLiteral_counters i s)
  | .int i v, s, s', h => by
    simp only [walkEx] at h
    cases h
    exact countersLe_of_counters_eq (exitLiteral_counters i s)
  | .str i v, s, s', h => by
    simp only [walkEx] at h
    cases h
    exact countersLe_of_counters_eq (exitLiteral_counters i s)

theorem walkExList_countersLe (B : Builtins) (T : LookupTableByModule) :
    ∀ (es : List TntEx) (s s' : InferState), walkExList B T es s = .ok s' → countersLe s s'
  | [], s, s', h => by
    simp only [walkExList] at h
    cases h
    exact countersLe_refl s
  | e :: es, s, s', h => by
    simp only [walkExList] at h
    cases hw : walkEx B T e s with
    | error m => rw [hw] at h; exact Except.noConfusion h
    | ok s1 =>
      rw [hw] at h
      dsimp only at h
      exact countersLe_trans (walkEx_countersLe B T e s s1 hw)
        (walkExList_countersLe B T es s1 s' h)

theorem walkOpDef_countersLe (B : Builtins) (T : LookupTableByModule) :
    ∀ (d : TntOpDef) (s s' : InferState), walkOpDef B T d s = .ok s' → countersLe s s'
  | .mk i nm q e, s, s', h => by
    simp only [walkOpDef] at h
    cases hw : walkEx B T e s with
    | error m => rw [hw] at h; exact Except.noConfusion h
    | ok s1 =>
      rw [hw] at h
      dsimp only at h
      cases h
      exact countersLe_trans (walkEx_countersLe B T e s s1 hw)
        (countersLe_of_counters_eq (exitOpDef_counters i (TntEx.id e) s1))

end

mutual

theorem walkDef_countersLe (B : Builtins) (T : LookupTableByModule) :
    ∀ (d : TntDef) (s s' : InferState), walkDef B T d s = .ok s' → countersLe s s'
  | .opdef d, s, s', h => by
    simp only [walkDef] at h
    exact walkOpDef_countersLe B T d s s' h
  | .var i nm, s, s', h => by
    simp only [walkDef] at h
    cases h
    exact countersLe_refl s
  | .const i nm, s, s', h => by
    simp only [walkDef] at h
    cases h
    exact countersLe_refl s
  | .moduleDef i (TntModule.mk mid mname ds), s, s', h => by
    simp only [walkDef] at h
    cases hw : enterModuleDef T (.mk mid mname ds) s with
    | error m => rw [hw] at h; exact Except.noConfusion h
    | ok s1 =>
      rw [hw] at h
      dsimp only at h
      cases hw2 : walkDefList B T ds s1 with
      | error m => rw [hw2] at h; exact Except.noConfusion h
      | ok s2 =>
        rw [hw2] at h
        dsimp only at h
        exact countersLe_trans
          (countersLe_of_counters_eq (enterModuleDef_counters T _ s s1 hw))
          (countersLe_trans (walkDefList_countersLe B T ds s1 s2 hw2)
            (countersLe_of_counters_eq (exitModuleDef_counters T s2 s' h)))

theorem walkDefList_countersLe (B : Builtins) (T : LookupTableByModule) :
    ∀ (ds : List TntDef) (s s' : InferState), walkDefList B T ds s = .ok s' → countersLe s s'
  | [], s, s', h => by
    simp only [walkDefList] at h
    cases h
    exact countersLe_refl s
  | d :: ds, s, s', h => by
    simp only [walkDefList] at h
    cases hw : walkDef B T d s with
    | error m => rw [hw] at h; exact Except.noConfusion h
    | ok s1 =>
      rw [hw] at h
      dsimp only at h
      exact countersLe_trans (walkDef_countersLe B T d s s1 hw)
        (walkDefList_countersLe B T ds s1 s' h)

end

theorem walkModule_countersLe (B : Builtins) (T : LookupTableByModule) (m : TntModule)
    (s s' : InferState) (h : walkModule B T m s = .ok s') : countersLe s s' :=
  walkDef_countersLe B T (.moduleDef 0 m) s s' h

/-- C8: the fresh-name generator starts at 0 for an unseen prefix, returns
the prefix followed by the decimal counter, strictly increments the counter
of that prefix by one on every call, and two calls with the same prefix at
different counter values return different names; moreover no traversal step
of a run ever decreases any counter, so within one inferEffects call no two
calls with the same prefix ever return the same name. -/
theorem freshVar_names_unique :
    (∀ (s : InferState) (pre : String), assocGet? s.freshVarCounters pre = none →
      (freshVar pre s).1 = pre ++ natToStr 0) ∧
    (∀ (s : InferState) (pre : String),
      (freshVar pre s).1 = pre ++ natToStr (getCounter s pre)) ∧
    (∀ (s : InferState) (pre : String),
      getCounter (freshVar pre s).2 pre = getCounter s pre + 1) ∧
    (∀ (s1 s2 : InferState) (pre : String), getCounter s1 pre ≠ getCounter s2 pre →
      (freshVar pre s1).1 ≠ (freshVar pre s2).1) ∧
    (∀ (B : Builtins) (tables : LookupTableByModule) (m : TntModule) (s s' : InferState),
      walkModule B tables m s = .ok s' → ∀ pre, getCounter s pre ≤ getCounter s' pre) := by
  refine ⟨?_, ?_, ?_, ?_, ?_⟩
  · intro s pre h
    simp [freshVar, getCounter, h]
  · intro s pre
    rfl
  · intro s pre
    exact getCounter_freshVar_self s pre
  · intro s1 s2 pre hne heq
    have heq' : pre ++ natToStr (getCounter s1 pre) = pre ++ natToStr (getCounter s2 pre) := heq
    exact hne (natToStr_inj _ _ (string_append_left_cancel heq'))
  · intro B tables m s s' h pre
    exact walkModule_countersLe B tables m s s' h pre

/-- C8 witness: the first two fresh e names of a run differ, the first one is
e0, and the counters never decrease across the concrete run on the pure
module. -/
theorem freshVar_names_unique_witness :
    (freshVar "e" emptyInferState).1 = "e" ++ natToStr 0 ∧
    (freshVar "e" emptyInferState).1 ≠ (freshVar "e" (freshVar "e" emptyInferState).2).1 ∧
    getCounter emptyInferState "v" ≤ getCounter pureRunState "v" :=
  ⟨freshVar_names_unique.1 emptyInferState "e" (by rfl),
   freshVar_names_unique.2.2.2.1 emptyInferState (freshVar "e" emptyInferState).2 "e" (by decide),
   freshVar_names_unique.2.2.2.2 [] pureTables pureModule emptyInferState pureRunState (by rfl) "v"⟩

end Tnt
